import Mathlib

/-!
Verification of the snapshot-diff engine of the `headcount` program
(`headcount.py`), against its natural-language specification.

The program's records are Python dictionaries mapping string keys to
optional string values; we embed a record as an association list
`List (String × Option String)` whose lookup (`dget`) mirrors Python's
`dict.get` (returning `none` both for an absent key and for a stored
`None`).  The diff engine `get_changes` fetches the snapshot for
`check_date - 1 day` and for `check_date`, indexes the old snapshot by
`employee_id` (dict comprehension: later duplicates overwrite earlier
ones), and walks the new snapshot in order, emitting `added` and
`changed` events.  Dates are embedded as integers counting days, so
`check_date - datetime.timedelta(days=1)` becomes `check_date - 1`.
-/

namespace Headcount

/-- An employee record: a Python dict with string keys and optional
string values, embedded as an association list (keys are unique in every
dict the program builds, so first-match lookup agrees with the dict). -/
abbrev Record := List (String × Option String)

/-- Python `dict.get(k)`: the value stored at `k`, or `None` when the key
is absent.  A stored `None` and an absent key both yield `none`. -/
def dget : Record → String → Option String
  | [], _ => none
  | (k', v) :: rest, k => if k' = k then v else dget rest k

/-- The fixed tuple of comparable field names iterated by `get_changes`
(headcount.py lines 127-129), in source order. -/
def comparableFields : List String :=
  ["employee_name", "last_name", "first_name", "business_title", "worker_status",
   "employee_type", "job_code", "job_title", "job_family", "cost_center", "manager",
   "management_level", "email_primary_work"]

/-- One entry of the `changes` list built by `get_changes`:
`{'field': field, 'old': old_value, 'new': new_value}`. -/
structure FieldDelta where
  field : String
  old : Option String
  new : Option String
deriving DecidableEq, Repr

/-- The inner comparison loop of `get_changes`, generalised over the list
of field names it walks: for each field in order, when
`not old_value == new_value`, a delta is appended. -/
def diffFieldsAux (fs : List String) (o n : Record) : List FieldDelta :=
  match fs with
  | [] => []
  | f :: rest =>
    if dget o f = dget n f then diffFieldsAux rest o n
    else ⟨f, dget o f, dget n f⟩ :: diffFieldsAux rest o n

/-- The `changes` list `get_changes` builds for an employee present in
both snapshots: one delta per differing comparable field, in the fixed
field order. -/
def diffFields (o n : Record) : List FieldDelta :=
  diffFieldsAux comparableFields o n

/-- Lookup in the old index
`old_dict = {r.get('employee_id'): r for r in db.get_data(old_day)}`
(headcount.py line 113) followed by `old_dict.get(employee_id)`: a dict
comprehension lets a later record with the same key overwrite an earlier
one, so the lookup searches the tail (later records) first. -/
def oldLookup : List Record → Option String → Option Record
  | [], _ => none
  | r :: rest, k =>
    match oldLookup rest k with
    | some o => some o
    | none => if dget r "employee_id" = k then some r else none

/-- One entry of the `results` list of `get_changes`: either
`{'result': 'added', 'data': new}` or
`{'result': 'changed', 'data': new, 'changes': changes}`. -/
inductive ChangeEvent where
  | added (data : Record)
  | changed (data : Record) (changes : List FieldDelta)
deriving DecidableEq, Repr

/-- The record carried by a change event (its `'data'` entry). -/
def ChangeEvent.data : ChangeEvent → Record
  | .added d => d
  | .changed d _ => d

/-- The pure core of `get_changes` (headcount.py lines 115-140): walk the
new snapshot in order; an employee absent from the old index yields an
`added` event, one present yields a `changed` event exactly when the
collected `changes` list is non-empty. -/
def diffSnapshots (oldSnap : List Record) : List Record → List ChangeEvent
  | [] => []
  | new :: rest =>
    match oldLookup oldSnap (dget new "employee_id") with
    | none => ChangeEvent.added new :: diffSnapshots oldSnap rest
    | some old =>
      if diffFields old new = [] then diffSnapshots oldSnap rest
      else ChangeEvent.changed new (diffFields old new) :: diffSnapshots oldSnap rest

/-- The error a snapshot fetch can raise (connectivity or query failure);
`get_changes` never catches it. -/
structure DataSourceError where
  msg : String
deriving DecidableEq, Repr

/-- `get_changes(db, check_date)` (headcount.py lines 111-140), with the
database's `get_data` abstracted as a fetch function from a day number to
either a snapshot or a `DataSourceError`.  It first fetches
`check_date - 1` (to build `old_dict`), then `check_date`, and any raised
error propagates unchanged. -/
def get_changes (fetch : Int → Except DataSourceError (List Record))
    (check_date : Int) : Except DataSourceError (List ChangeEvent) :=
  match fetch (check_date - 1) with
  | .error e => .error e
  | .ok oldSnap =>
    match fetch check_date with
    | .error e => .error e
    | .ok newSnap => .ok (diffSnapshots oldSnap newSnap)

/-- The `employee_id` a change event reports (the id of its `data`
record). -/
def eventId (e : ChangeEvent) : Option String :=
  dget e.data "employee_id"

/-- The sub-sequence of events concerning one employee id. -/
def eventsFor (eid : Option String) (evs : List ChangeEvent) : List ChangeEvent :=
  evs.filter (fun e => decide (eventId e = eid))

/-- The snapshot invariant: at most one record per `employee_id`. -/
abbrev uniqueIds (rs : List Record) : Prop :=
  (rs.map (fun r => dget r "employee_id")).Nodup

/-- One row as returned by the SQL query of `Database.get_data`
(headcount.py lines 49-66): exactly the columns of its outer SELECT list,
each nullable.  The three `_RAW` columns hold `UTL_RAW.CAST_TO_RAW` text;
we embed raw bytes by their decoded text. -/
structure RawRow where
  employee_id : Option String
  worker_status : Option String
  employee_type : Option String
  job_code : Option String
  job_title : Option String
  job_family : Option String
  cost_center : Option String
  management_level : Option String
  email_primary_work : Option String
  employee_name_raw : Option String
  business_title_raw : Option String
  manager_raw : Option String
deriving DecidableEq, Repr

/-- Python `bytes.decode()`: since we embed raw bytes by their text,
decoding is the identity. -/
def decode (b : String) : String := b

/-- The dict the row factory builds for one fetched row (column names
lowercased, headcount.py lines 24-31). -/
def rowToDict (r : RawRow) : Record :=
  [("employee_id", r.employee_id), ("worker_status", r.worker_status),
   ("employee_type", r.employee_type), ("job_code", r.job_code),
   ("job_title", r.job_title), ("job_family", r.job_family),
   ("cost_center", r.cost_center), ("management_level", r.management_level),
   ("email_primary_work", r.email_primary_work),
   ("employee_name_raw", r.employee_name_raw),
   ("business_title_raw", r.business_title_raw), ("manager_raw", r.manager_raw)]

/-- The per-row post-processing loop body of `Database.get_data`
(headcount.py lines 71-80): `employee_name_raw` is decoded
unconditionally — on a null it raises `AttributeError` ('NoneType' object
has no attribute 'decode') — while `business_title_raw` and `manager_raw`
are guarded against null before decoding.  The three decoded keys are
added to the row dict. -/
def processRow (r : RawRow) : Except String Record :=
  match r.employee_name_raw with
  | none => Except.error "AttributeError"
  | some nameRaw =>
    Except.ok (rowToDict r ++
      [("employee_name", some (decode nameRaw)),
       ("business_title", r.business_title_raw.map decode),
       ("manager", r.manager_raw.map decode)])

namespace Database

/-- `Database.get_data(day)` (headcount.py lines 45-81) after the SQL
fetch: post-process the fetched rows in order; the first row whose
post-processing raises aborts the whole call with that error. -/
def get_data : List RawRow → Except String (List Record)
  | [] => Except.ok []
  | r :: rest =>
    match processRow r with
    | .error e => .error e
    | .ok rec =>
      match get_data rest with
      | .error e => .error e
      | .ok recs => .ok (rec :: recs)

end Database

/-! ### Helper lemmas about the comparison loop -/

theorem mem_diffFieldsAux (fs : List String) (o n : Record) (f : String) (a b : Option String) :
    (⟨f, a, b⟩ : FieldDelta) ∈ diffFieldsAux fs o n ↔
      f ∈ fs ∧ a = dget o f ∧ b = dget n f ∧ a ≠ b := by
  induction fs with
  | nil => simp [diffFieldsAux]
  | cons g rest ih =>
    by_cases h : dget o g = dget n g
    · rw [diffFieldsAux, if_pos h, ih]
      constructor
      · rintro ⟨hf, ha, hb, hne⟩
        exact ⟨List.mem_cons_of_mem _ hf, ha, hb, hne⟩
      · rintro ⟨hf, ha, hb, hne⟩
        rcases List.mem_cons.mp hf with rfl | hf'
        · exact absurd (ha.trans (h.trans hb.symm)) hne
        · exact ⟨hf', ha, hb, hne⟩
    · rw [diffFieldsAux, if_neg h]
      simp only [List.mem_cons, FieldDelta.mk.injEq, ih]
      constructor
      · rintro (⟨rfl, rfl, rfl⟩ | ⟨hf, ha, hb, hne⟩)
        · exact ⟨Or.inl rfl, rfl, rfl, h⟩
        · exact ⟨Or.inr hf, ha, hb, hne⟩
      · rintro ⟨rfl | hf, ha, hb, hne⟩
        · exact Or.inl ⟨rfl, ha, hb⟩
        · exact Or.inr ⟨hf, ha, hb, hne⟩

theorem diffFieldsAux_eq_nil (fs : List String) (o n : Record) :
    diffFieldsAux fs o n = [] ↔ ∀ f ∈ fs, dget o f = dget n f := by
  induction fs with
  | nil => simp [diffFieldsAux]
  | cons g rest ih =>
    by_cases h : dget o g = dget n g
    · rw [diffFieldsAux, if_pos h, ih]
      constructor
      · intro hall f hf
        rcases List.mem_cons.mp hf with rfl | hf'
        · exact h
        · exact hall f hf'
      · intro hall f hf
        exact hall f (List.mem_cons_of_mem _ hf)
    · rw [diffFieldsAux, if_neg h]
      constructor
      · intro hc
        exact absurd hc (List.cons_ne_nil _ _)
      · intro hall
        exact absurd (hall g (List.mem_cons_self g rest)) h

theorem diffFieldsAux_fields_sublist (fs : List String) (o n : Record) :
    List.Sublist ((diffFieldsAux fs o n).map FieldDelta.field) fs := by
  induction fs with
  | nil => simp [diffFieldsAux]
  | cons g rest ih =>
    by_cases h : dget o g = dget n g
    · rw [diffFieldsAux, if_pos h]
      exact ih.cons g
    · rw [diffFieldsAux, if_neg h, List.map_cons]
      exact ih.cons₂ g

/-! ### Helper lemmas about the old-snapshot index -/

theorem oldLookup_append (l1 l2 : List Record) (k : Option String) :
    oldLookup (l1 ++ l2) k =
      match oldLookup l2 k with
      | some o => some o
      | none => oldLookup l1 k := by
  induction l1 with
  | nil =>
    rw [List.nil_append]
    cases oldLookup l2 k <;> rfl
  | cons r rest ih =>
    rw [List.cons_append, oldLookup, ih]
    cases oldLookup l2 k <;> rfl

theorem oldLookup_last_wins (l : List Record) (r : Record) (k : Option String)
    (h : dget r "employee_id" = k) : oldLookup (l ++ [r]) k = some r := by
  rw [oldLookup_append]
  simp [oldLookup, h]

theorem oldLookup_cons_ne_none (r : Record) (rest : List Record) (k : Option String)
    (hk : dget r "employee_id" = k) : oldLookup (r :: rest) k ≠ none := by
  rw [oldLookup]
  cases oldLookup rest k with
  | some o => simp
  | none => simp [hk]

/-! ### Helper lemmas about the diff pass -/

theorem diffSnapshots_congr (o1 o2 : List Record)
    (h : ∀ k, oldLookup o1 k = oldLookup o2 k) (n : List Record) :
    diffSnapshots o1 n = diffSnapshots o2 n := by
  induction n with
  | nil => rfl
  | cons x rest ih => simp only [diffSnapshots, h, ih]

theorem diffSnapshots_data_sublist (oldSnap n : List Record) :
    List.Sublist ((diffSnapshots oldSnap n).map ChangeEvent.data) n := by
  induction n with
  | nil => simp [diffSnapshots]
  | cons x rest ih =>
    rw [diffSnapshots]
    split
    · rw [List.map_cons]
      exact ih.cons₂ x
    · split
      · exact ih.cons x
      · rw [List.map_cons]
        exact ih.cons₂ x

theorem eventId_mem (oldSnap : List Record) (n : List Record) :
    ∀ e ∈ diffSnapshots oldSnap n, eventId e ∈ n.map (fun r => dget r "employee_id") := by
  induction n with
  | nil => intro e he; simp [diffSnapshots] at he
  | cons x rest ih =>
    intro e he
    rw [diffSnapshots] at he
    split at he
    · rcases List.mem_cons.mp he with rfl | he'
      · exact List.mem_map_of_mem _ (List.mem_cons_self x rest)
      · exact List.mem_cons_of_mem _ (ih e he')
    · split at he
      · exact List.mem_cons_of_mem _ (ih e he)
      · rcases List.mem_cons.mp he with rfl | he'
        · exact List.mem_map_of_mem _ (List.mem_cons_self x rest)
        · exact List.mem_cons_of_mem _ (ih e he')

theorem eventsFor_cons (eid : Option String) (e : ChangeEvent) (evs : List ChangeEvent) :
    eventsFor eid (e :: evs) =
      if eventId e = eid then e :: eventsFor eid evs else eventsFor eid evs := by
  by_cases h : eventId e = eid <;> simp [eventsFor, List.filter, h]

theorem eventsFor_nil_of_not_mem (oldSnap : List Record) (eid : Option String)
    (n : List Record) (hnot : eid ∉ n.map (fun r => dget r "employee_id")) :
    eventsFor eid (diffSnapshots oldSnap n) = [] := by
  rw [eventsFor, List.filter_eq_nil_iff]
  intro e he
  simp only [decide_eq_true_eq]
  intro heq
  exact hnot (heq ▸ eventId_mem oldSnap n e he)

theorem eventsFor_diffSnapshots_of_none (oldSnap : List Record) (n : List Record)
    (hu : uniqueIds n) (r : Record) (hr : r ∈ n)
    (h : oldLookup oldSnap (dget r "employee_id") = none) :
    eventsFor (dget r "employee_id") (diffSnapshots oldSnap n) = [ChangeEvent.added r] := by
  induction n with
  | nil => cases hr
  | cons x rest ih =>
    simp only [uniqueIds, List.map_cons, List.nodup_cons] at hu
    rcases List.mem_cons.mp hr with rfl | hr'
    · have htail : eventsFor (dget r "employee_id") (diffSnapshots oldSnap rest) = [] :=
        eventsFor_nil_of_not_mem oldSnap _ rest hu.1
      rw [diffSnapshots]
      simp only [h]
      rw [eventsFor_cons,
        if_pos (show eventId (ChangeEvent.added r) = dget r "employee_id" from rfl), htail]
    · have hid : dget x "employee_id" ≠ dget r "employee_id" := by
        intro heq
        exact hu.1 (heq ▸ List.mem_map_of_mem _ hr')
      rw [diffSnapshots]
      cases hx : oldLookup oldSnap (dget x "employee_id") with
      | none =>
        simp only [hx]
        rw [eventsFor_cons,
          if_neg (show ¬eventId (ChangeEvent.added x) = dget r "employee_id" from hid)]
        exact ih hu.2 hr'
      | some old =>
        simp only [hx]
        by_cases hc : diffFields old x = []
        · rw [if_pos hc]
          exact ih hu.2 hr'
        · rw [if_neg hc, eventsFor_cons,
            if_neg (show ¬eventId (ChangeEvent.changed x (diffFields old x)) = dget r "employee_id" from hid)]
          exact ih hu.2 hr'

theorem eventsFor_diffSnapshots_of_some (oldSnap : List Record) (n : List Record)
    (hu : uniqueIds n) (r o : Record) (hr : r ∈ n)
    (h : oldLookup oldSnap (dget r "employee_id") = some o) :
    eventsFor (dget r "employee_id") (diffSnapshots oldSnap n) =
      if diffFields o r = [] then [] else [ChangeEvent.changed r (diffFields o r)] := by
  induction n with
  | nil => cases hr
  | cons x rest ih =>
    simp only [uniqueIds, List.map_cons, List.nodup_cons] at hu
    rcases List.mem_cons.mp hr with rfl | hr'
    · have htail : eventsFor (dget r "employee_id") (diffSnapshots oldSnap rest) = [] :=
        eventsFor_nil_of_not_mem oldSnap _ rest hu.1
      rw [diffSnapshots]
      simp only [h]
      by_cases hc : diffFields o r = []
      · rw [if_pos hc, if_pos hc, htail]
      · rw [if_neg hc, if_neg hc, eventsFor_cons,
          if_pos (show eventId (ChangeEvent.changed r (diffFields o r)) = dget r "employee_id" from rfl),
          htail]
    · have hid : dget x "employee_id" ≠ dget r "employee_id" := by
        intro heq
        exact hu.1 (heq ▸ List.mem_map_of_mem _ hr')
      rw [diffSnapshots]
      cases hx : oldLookup oldSnap (dget x "employee_id") with
      | none =>
        simp only [hx]
        rw [eventsFor_cons,
          if_neg (show ¬eventId (ChangeEvent.added x) = dget r "employee_id" from hid)]
        exact ih hu.2 hr'
      | some old =>
        simp only [hx]
        by_cases hc : diffFields old x = []
        · rw [if_pos hc]
          exact ih hu.2 hr'
        · rw [if_neg hc, eventsFor_cons,
            if_neg (show ¬eventId (ChangeEvent.changed x (diffFields old x)) = dget r "employee_id" from hid)]
          exact ih hu.2 hr'

theorem diffSnapshots_nil_old (n : List Record) :
    diffSnapshots [] n = n.map ChangeEvent.added := by
  induction n with
  | nil => rfl
  | cons x rest ih =>
    rw [diffSnapshots]
    simp only [oldLookup]
    rw [List.map_cons, ih]

/-! ### Sample snapshots used to instantiate the theorems -/

def exOldRec : Record := [("employee_id", some "E1"), ("manager", some "Alice")]

def exNewRec : Record := [("employee_id", some "E1"), ("manager", some "Bob")]

def exOldRec2 : Record := [("employee_id", some "E1"), ("manager", some "Carol")]

def exNullOld : Record := [("employee_id", some "E1"), ("manager", none)]

def exAddRec : Record := [("employee_id", some "E2"), ("worker_status", some "Active")]

/-! ### The claims -/

/-- C1: for an employee present in both snapshots, `get_changes` emits a
`changed` event iff at least one of the 13 comparable attributes differs;
when it does, exactly one event is emitted for that employee, its
`field_deltas` are precisely the differing attributes with the correct
old/new values, in the fixed field order; when all 13 attributes agree,
no event of any kind is emitted for that employee. -/
theorem changed_event_iff_and_deltas_exact (oldSnap newSnap : List Record) (r o : Record)
    (eid : Option String) (hu : uniqueIds newSnap) (hr : r ∈ newSnap)
    (hid : dget r "employee_id" = eid) (ho : oldLookup oldSnap eid = some o) :
    eventsFor eid (diffSnapshots oldSnap newSnap) =
      (if diffFields o r = [] then [] else [ChangeEvent.changed r (diffFields o r)])
    ∧ (diffFields o r = [] ↔ ∀ f ∈ comparableFields, dget o f = dget r f)
    ∧ (∀ f a b, (⟨f, a, b⟩ : FieldDelta) ∈ diffFields o r ↔
        f ∈ comparableFields ∧ a = dget o f ∧ b = dget r f ∧ a ≠ b)
    ∧ List.Sublist ((diffFields o r).map FieldDelta.field) comparableFields := by
  subst hid
  exact ⟨eventsFor_diffSnapshots_of_some oldSnap newSnap hu r o hr ho,
    diffFieldsAux_eq_nil comparableFields o r,
    fun f a b => mem_diffFieldsAux comparableFields o r f a b,
    diffFieldsAux_fields_sublist comparableFields o r⟩

/-- Witness for C1: one employee whose `manager` changed from Alice to
Bob yields exactly the one `changed` event. -/
theorem changed_event_iff_and_deltas_exact_witness :
    eventsFor (some "E1") (diffSnapshots [exOldRec] [exNewRec]) =
      [ChangeEvent.changed exNewRec (diffFields exOldRec exNewRec)] := by
  have h := (changed_event_iff_and_deltas_exact [exOldRec] [exNewRec] exNewRec exOldRec
    (some "E1") (by decide) (by decide) (by decide) (by decide)).1
  rw [h, if_neg (by decide)]

/-- C2: an employee present only in the target-day snapshot yields
exactly one `added` event carrying the target-day record; with an empty
previous snapshot every target-day record yields an `added` event. -/
theorem added_event_exact (oldSnap newSnap : List Record) (r : Record) (eid : Option String)
    (hu : uniqueIds newSnap) (hr : r ∈ newSnap) (hid : dget r "employee_id" = eid)
    (ho : oldLookup oldSnap eid = none) :
    eventsFor eid (diffSnapshots oldSnap newSnap) = [ChangeEvent.added r]
    ∧ diffSnapshots [] newSnap = newSnap.map ChangeEvent.added := by
  subst hid
  exact ⟨eventsFor_diffSnapshots_of_none oldSnap newSnap hu r hr ho,
    diffSnapshots_nil_old newSnap⟩

/-- Witness for C2: a fresh employee id yields exactly one `added`
event. -/
theorem added_event_exact_witness :
    eventsFor (some "E2") (diffSnapshots [exOldRec] [exAddRec]) =
      [ChangeEvent.added exAddRec] :=
  (added_event_exact [exOldRec] [exAddRec] exAddRec (some "E2")
    (by decide) (by decide) (by decide) (by decide)).1

/-- C3: an employee present in the previous snapshot and absent from the
target snapshot produces no event of any kind. -/
theorem removed_employee_no_event (oldSnap newSnap : List Record) (eid : Option String)
    (hold : eid ∈ oldSnap.map (fun r => dget r "employee_id"))
    (hnew : eid ∉ newSnap.map (fun r => dget r "employee_id")) :
    eventsFor eid (diffSnapshots oldSnap newSnap) = [] :=
  eventsFor_nil_of_not_mem oldSnap eid newSnap hnew

/-- Witness for C3: employee E1 disappears and no event mentions it. -/
theorem removed_employee_no_event_witness :
    eventsFor (some "E1") (diffSnapshots [exOldRec] [exAddRec]) = [] :=
  removed_employee_no_event [exOldRec] [exAddRec] (some "E1") (by decide) (by decide)

/-- C4: a comparable field that is null on both sides is never reported;
null on one side and non-null (even the empty string) on the other is
reported with the null side as the explicit absent value; null and the
empty string compare as unequal. -/
theorem null_field_handling (o n : Record) (f : String) (hf : f ∈ comparableFields) :
    (dget o f = none → dget n f = none →
      ∀ a b, (⟨f, a, b⟩ : FieldDelta) ∉ diffFields o n)
    ∧ (∀ s, dget o f = none → dget n f = some s →
        (⟨f, none, some s⟩ : FieldDelta) ∈ diffFields o n)
    ∧ (∀ s, dget o f = some s → dget n f = none →
        (⟨f, some s, none⟩ : FieldDelta) ∈ diffFields o n)
    ∧ (none : Option String) ≠ some "" := by
  refine ⟨?_, ?_, ?_, by simp⟩
  · intro h1 h2 a b hmem
    obtain ⟨-, ha, hb, hne⟩ := (mem_diffFieldsAux comparableFields o n f a b).mp hmem
    exact hne ((ha.trans h1).trans (hb.trans h2).symm)
  · intro s h1 h2
    exact (mem_diffFieldsAux comparableFields o n f none (some s)).mpr
      ⟨hf, h1.symm, h2.symm, by simp⟩
  · intro s h1 h2
    exact (mem_diffFieldsAux comparableFields o n f (some s) none).mpr
      ⟨hf, h1.symm, h2.symm, by simp⟩

/-- Witness for C4: `manager` going from null to "Bob" is reported with
an explicit null old side. -/
theorem null_field_handling_witness :
    (⟨"manager", none, some "Bob"⟩ : FieldDelta) ∈ diffFields exNullOld exNewRec :=
  (null_field_handling exNullOld exNewRec "manager" (by decide)).2.1 "Bob"
    (by decide) (by decide)

/-- C5: `get_changes(check_date)` diffs the snapshot fetched for
`check_date - 1` against the snapshot fetched for `check_date`, and the
events come out in the order the target-day snapshot was returned
(`added` and `changed` interleaved as encountered, no sorting): the
events' records form a subsequence of the target-day snapshot. -/
theorem run_dates_and_output_order (fetch : Int → Except DataSourceError (List Record))
    (d : Int) (o n : List Record) (h1 : fetch (d - 1) = Except.ok o)
    (h2 : fetch d = Except.ok n) :
    get_changes fetch d = Except.ok (diffSnapshots o n)
    ∧ List.Sublist ((diffSnapshots o n).map ChangeEvent.data) n := by
  refine ⟨?_, diffSnapshots_data_sublist o n⟩
  simp only [get_changes, h1, h2]

def exFetch : Int → Except DataSourceError (List Record) :=
  fun x => if x = 5 then Except.ok [exNewRec] else Except.ok [exOldRec]

/-- Witness for C5 on a two-day repository. -/
theorem run_dates_and_output_order_witness :
    get_changes exFetch 5 = Except.ok (diffSnapshots [exOldRec] [exNewRec]) :=
  (run_dates_and_output_order exFetch 5 [exOldRec] [exNewRec] rfl rfl).1

/-- C6: a duplicated `employee_id` in the previous-day snapshot is
resolved silently by last-seen-wins: an earlier record whose id recurs
later is invisible to the index and to the whole diff, and when the
duplicate is the last record of the snapshot the index returns it. -/
theorem duplicate_old_ids_last_wins (pre mid post newSnap : List Record) (r1 r2 : Record)
    (h : dget r1 "employee_id" = dget r2 "employee_id") :
    (∀ k, oldLookup (pre ++ r1 :: (mid ++ r2 :: post)) k
        = oldLookup (pre ++ (mid ++ r2 :: post)) k)
    ∧ diffSnapshots (pre ++ r1 :: (mid ++ r2 :: post)) newSnap
        = diffSnapshots (pre ++ (mid ++ r2 :: post)) newSnap
    ∧ oldLookup ((pre ++ r1 :: mid) ++ [r2]) (dget r1 "employee_id") = some r2 := by
  have hk : ∀ k, oldLookup (pre ++ r1 :: (mid ++ r2 :: post)) k
      = oldLookup (pre ++ (mid ++ r2 :: post)) k := by
    intro k
    have hinner : oldLookup (r1 :: (mid ++ r2 :: post)) k = oldLookup (mid ++ r2 :: post) k := by
      rw [oldLookup]
      cases ht : oldLookup (mid ++ r2 :: post) k with
      | some o => rfl
      | none =>
        have hne : ¬dget r1 "employee_id" = k := by
          intro hk1
          have h2 : oldLookup (mid ++ r2 :: post) k ≠ none := by
            rw [oldLookup_append]
            cases hpost : oldLookup (r2 :: post) k with
            | some o => exact fun hcon => Option.noConfusion hcon
            | none => exact absurd hpost (oldLookup_cons_ne_none r2 post k (h ▸ hk1))
          exact h2 ht
        show (if dget r1 "employee_id" = k then some r1 else none) = none
        rw [if_neg hne]
    rw [oldLookup_append, oldLookup_append, hinner]
  exact ⟨hk, diffSnapshots_congr _ _ hk newSnap,
    oldLookup_last_wins (pre ++ r1 :: mid) r2 (dget r1 "employee_id") h.symm⟩

/-- Witness for C6: with two records for E1, the index keeps the later
one. -/
theorem duplicate_old_ids_last_wins_witness :
    oldLookup [exOldRec, exOldRec2] (some "E1") = some exOldRec2 :=
  (duplicate_old_ids_last_wins [] [] [] [] exOldRec exOldRec2 (by decide)).2.2

/-- C7: a `DataSourceError` raised by either snapshot fetch propagates
unchanged out of `get_changes`, and a successful result can only be the
full diff of both fetched snapshots — there is no partial output. -/
theorem datasource_error_propagates (fetch : Int → Except DataSourceError (List Record))
    (d : Int) :
    (∀ e, fetch (d - 1) = Except.error e → get_changes fetch d = Except.error e)
    ∧ (∀ o e, fetch (d - 1) = Except.ok o → fetch d = Except.error e →
        get_changes fetch d = Except.error e)
    ∧ (∀ evs, get_changes fetch d = Except.ok evs →
        ∃ o n, fetch (d - 1) = Except.ok o ∧ fetch d = Except.ok n
          ∧ evs = diffSnapshots o n) := by
  refine ⟨?_, ?_, ?_⟩
  · intro e he
    simp only [get_changes, he]
  · intro o e h1 h2
    simp only [get_changes, h1, h2]
  · intro evs hev
    cases h1 : fetch (d - 1) with
    | error e =>
      simp only [get_changes, h1] at hev
      exact Except.noConfusion hev
    | ok o =>
      cases h2 : fetch d with
      | error e =>
        simp only [get_changes, h1, h2] at hev
        exact Except.noConfusion hev
      | ok n =>
        simp only [get_changes, h1, h2, Except.ok.injEq] at hev
        exact ⟨o, n, rfl, rfl, hev.symm⟩

/-- Witness for C7: a failing previous-day fetch surfaces its error. -/
theorem datasource_error_propagates_witness :
    get_changes (fun x => if x = 0 then Except.error ⟨"db down"⟩ else Except.ok []) 1
      = Except.error ⟨"db down"⟩ :=
  (datasource_error_propagates
    (fun x => if x = 0 then Except.error ⟨"db down"⟩ else Except.ok []) 1).1
    ⟨"db down"⟩ rfl

/-- C8: `get_changes` is deterministic in its snapshot inputs: two runs
whose fetches return value-identical results for the previous day and for
the target day produce value-identical outputs. -/
theorem deterministic_in_snapshots (f1 f2 : Int → Except DataSourceError (List Record))
    (d : Int) (h1 : f1 (d - 1) = f2 (d - 1)) (h2 : f1 d = f2 d) :
    get_changes f1 d = get_changes f2 d := by
  simp only [get_changes, h1, h2]

/-- Witness for C8: two different fetch functions agreeing on the two
relevant days give identical outputs. -/
theorem deterministic_in_snapshots_witness :
    get_changes (fun _ => Except.ok [exNewRec]) 3
      = get_changes (fun x => if x = 7 then Except.ok [] else Except.ok [exNewRec]) 3 :=
  deterministic_in_snapshots (fun _ => Except.ok [exNewRec])
    (fun x => if x = 7 then Except.ok [] else Except.ok [exNewRec]) 3 rfl rfl

/-! ### Helper lemmas about Database.get_data -/

theorem processRow_none (r : RawRow) (h : r.employee_name_raw = none) :
    processRow r = Except.error "AttributeError" := by
  simp only [processRow, h]

theorem processRow_ok_shape (r : RawRow) (rec : Record) (h : processRow r = Except.ok rec) :
    dget rec "last_name" = none ∧ dget rec "first_name" = none
    ∧ (∃ nm, r.employee_name_raw = some nm ∧ dget rec "employee_name" = some (decode nm))
    ∧ dget rec "business_title" = r.business_title_raw.map decode
    ∧ dget rec "manager" = r.manager_raw.map decode := by
  cases hnm : r.employee_name_raw with
  | none =>
    rw [processRow_none r hnm] at h
    exact Except.noConfusion h
  | some nm =>
    simp only [processRow, hnm] at h
    cases h
    exact ⟨rfl, rfl, ⟨nm, rfl, rfl⟩, rfl, rfl⟩

theorem get_data_mem (rows : List RawRow) :
    ∀ recs rec, Database.get_data rows = Except.ok recs → rec ∈ recs →
      ∃ r, processRow r = Except.ok rec := by
  induction rows with
  | nil =>
    intro recs rec h hm
    unfold Database.get_data at h
    cases h
    cases hm
  | cons r rest ih =>
    intro recs rec h hm
    unfold Database.get_data at h
    cases hpr : processRow r with
    | error e =>
      simp only [hpr] at h
      exact Except.noConfusion h
    | ok rec0 =>
      simp only [hpr] at h
      cases hgd : Database.get_data rest with
      | error e =>
        simp only [hgd] at h
        exact Except.noConfusion h
      | ok recs' =>
        simp only [hgd, Except.ok.injEq] at h
        subst h
        rcases List.mem_cons.mp hm with rfl | hm'
        · exact ⟨r, hpr⟩
        · exact ih recs' rec hgd hm'

theorem get_data_not_ok (badRow : RawRow) (hnull : badRow.employee_name_raw = none)
    (l1 : List RawRow) :
    ∀ l2 recs, Database.get_data (l1 ++ badRow :: l2) ≠ Except.ok recs := by
  induction l1 with
  | nil =>
    intro l2 recs h
    rw [List.nil_append] at h
    unfold Database.get_data at h
    simp only [processRow_none badRow hnull] at h
    exact Except.noConfusion h
  | cons x rest ih =>
    intro l2 recs h
    rw [List.cons_append] at h
    unfold Database.get_data at h
    cases hpr : processRow x with
    | error e =>
      simp only [hpr] at h
      exact Except.noConfusion h
    | ok rec0 =>
      simp only [hpr] at h
      cases hgd : Database.get_data (rest ++ badRow :: l2) with
      | error e =>
        simp only [hgd] at h
        exact Except.noConfusion h
      | ok recs' => exact absurd hgd (ih l2 recs')

/-- C9: `Database.get_data` never selects `LAST_NAME` or `FIRST_NAME`, so
records it returns have no such keys; both lookups yield null on both
sides and no field delta for `last_name` or `first_name` is ever
emitted. -/
theorem last_first_name_never_reported (rows1 rows2 : List RawRow) (os ns : List Record)
    (ro rn : Record) (h1 : Database.get_data rows1 = Except.ok os)
    (h2 : Database.get_data rows2 = Except.ok ns) (ho : ro ∈ os) (hn : rn ∈ ns) :
    dget ro "last_name" = none ∧ dget ro "first_name" = none
    ∧ dget rn "last_name" = none ∧ dget rn "first_name" = none
    ∧ ∀ d ∈ diffFields ro rn, d.field ≠ "last_name" ∧ d.field ≠ "first_name" := by
  obtain ⟨a, ha⟩ := get_data_mem rows1 os ro h1 ho
  obtain ⟨b, hb⟩ := get_data_mem rows2 ns rn h2 hn
  obtain ⟨hl1, hf1, -, -, -⟩ := processRow_ok_shape a ro ha
  obtain ⟨hl2, hf2, -, -, -⟩ := processRow_ok_shape b rn hb
  refine ⟨hl1, hf1, hl2, hf2, ?_⟩
  intro d hd
  obtain ⟨f, x, y⟩ := d
  obtain ⟨-, hx, hy, hne⟩ := (mem_diffFieldsAux comparableFields ro rn f x y).mp hd
  constructor
  · show f ≠ "last_name"
    rintro rfl
    exact hne ((hx.trans hl1).trans (hy.trans hl2).symm)
  · show f ≠ "first_name"
    rintro rfl
    exact hne ((hx.trans hf1).trans (hy.trans hf2).symm)

def sampleRaw : RawRow :=
  ⟨some "E1", some "Active", none, none, none, none, none, none, none,
   some "Jo", none, some "Boss"⟩

def sampleRec : Record :=
  rowToDict sampleRaw ++
    [("employee_name", some (decode "Jo")), ("business_title", none),
     ("manager", some (decode "Boss"))]

/-- Witness for C9 on a concrete fetched row. -/
theorem last_first_name_never_reported_witness :
    dget sampleRec "last_name" = none :=
  (last_first_name_never_reported [sampleRaw] [sampleRaw] [sampleRec] [sampleRec]
    sampleRec sampleRec rfl rfl (List.mem_singleton.mpr rfl)
    (List.mem_singleton.mpr rfl)).1

def badRaw : RawRow :=
  ⟨some "E9", none, none, none, none, none, none, none, none, none, none, none⟩

/-- C10: `Database.get_data` guards `business_title_raw` and
`manager_raw` against null before decoding but decodes
`employee_name_raw` unconditionally: every returned record carries a
non-null decoded `employee_name`, and a row with a null `EMPLOYEE_NAME`
makes the whole fetch fail instead of yielding a record with a null
`employee_name`. -/
theorem employee_name_decode_guard (rows : List RawRow) (recs : List Record) (rec : Record)
    (badRow : RawRow) (l1 l2 : List RawRow)
    (h : Database.get_data rows = Except.ok recs) (hm : rec ∈ recs)
    (hnull : badRow.employee_name_raw = none) :
    (∃ s, dget rec "employee_name" = some s)
    ∧ (∀ recs2, Database.get_data (l1 ++ badRow :: l2) ≠ Except.ok recs2)
    ∧ (∀ r2 rec2, processRow r2 = Except.ok rec2 →
        dget rec2 "business_title" = r2.business_title_raw.map decode
        ∧ dget rec2 "manager" = r2.manager_raw.map decode) := by
  obtain ⟨a, ha⟩ := get_data_mem rows recs rec h hm
  obtain ⟨-, -, ⟨nm, -, hname⟩, -, -⟩ := processRow_ok_shape a rec ha
  refine ⟨⟨decode nm, hname⟩, fun recs2 => get_data_not_ok badRow hnull l1 l2 recs2, ?_⟩
  intro r2 rec2 h2
  obtain ⟨-, -, -, hbt, hmg⟩ := processRow_ok_shape r2 rec2 h2
  exact ⟨hbt, hmg⟩

/-- Witness for C10: a row with a null `EMPLOYEE_NAME` makes the fetch
fail. -/
theorem employee_name_decode_guard_witness :
    Database.get_data ([] ++ badRaw :: []) ≠ Except.ok [] :=
  (employee_name_decode_guard [sampleRaw] [sampleRec] sampleRec badRaw [] []
    rfl (List.mem_singleton.mpr rfl) rfl).2.1 []

end Headcount
